import Mathlib

/-!
# Verification of the Athena reconciliation and scoring engine

A shallow embedding, in Lean 4, of the core logic of the Athena repository
(`scoring/matcher.py` and `scoring/scorer.py`), together with proofs of the
behavioural properties stated in the design document.

Modelling conventions:
* Python `str` is modelled as Lean `String` (operations are defined on the
  underlying `List Char`); `str.lower()` is modelled with `Char.toLower`,
  which covers the basic-latin range actually exercised by the engine.
* Nullable database columns are modelled as `Option`; Python truthiness of a
  nullable string column (`if not x`) is `pyFalsy`.
* The SQLite store is modelled as an explicit `Store` record (lists of rows);
  SQL statements used by the engine (`SELECT ... WHERE`, `UPDATE`, `DELETE`)
  become the corresponding list operations.
* Machine integers are `Int`/`Nat` (no overflow is reachable at these sizes);
  the floating-point comparison `sim >= 0.3` is modelled exactly over `ℚ`.
* `datetime.now()` and the module constant `SEVEN_DAYS_AGO` are injected as
  parameters (seconds since the proleptic-Gregorian epoch, as computed by
  `DateTime.toSec`).
-/

/-! ## Basic character and list utilities (Python string semantics) -/

/-- Python whitespace for the `strip()` and `split()` string methods (ASCII range). -/
def pyIsSpace (c : Char) : Bool :=
  c = ' ' || c = '\t' || c = '\n' || c = '\x0d' || c = '\x0b' || c = '\x0c'

/-- Model of `s.lower()` on a single character (basic-latin range). -/
def pyLowerChar (c : Char) : Char := Char.toLower c

/-- Remove the longest run of characters satisfying `p` from the end. -/
def rstripP (p : Char → Bool) (l : List Char) : List Char :=
  (l.reverse.dropWhile p).reverse

/-- Remove the longest run of characters satisfying `p` from both ends:
Python `str.strip()` with `p := pyIsSpace`. -/
def stripP (p : Char → Bool) (l : List Char) : List Char :=
  rstripP p (l.dropWhile p)

/-- Number of words of Python `str.split()` (maximal non-whitespace runs). -/
def pyWordCount (l : List Char) : Nat :=
  (l.foldl
    (fun acc c =>
      if pyIsSpace c then (acc.1, false)
      else if acc.2 then acc else (acc.1 + 1, true))
    ((0 : Nat), false)).1

/-- Model of `s.startswith(p)`. -/
def pyStartsWith (p l : List Char) : Bool :=
  l.take p.length == p

/-- Model of `needle in haystack` for Python strings (contiguous substring). -/
def pySubstr (needle haystack : List Char) : Bool :=
  (List.range (haystack.length + 1)).any
    (fun i => pyStartsWith needle (haystack.drop i))

/-! ## `scoring/matcher.py` — name normalization -/

/-- Constant `LEGAL_SUFFIXES` from `scoring/matcher.py` (tuple order is significant:
the suffix loop checks each entry once, in this order). -/
def LEGAL_SUFFIXES : List (List Char) :=
  [" ag".data, " sa".data, " gmbh".data, " ltd".data, " inc".data,
   " inc.".data, " co.".data, " llc".data, " corp".data, " corp.".data]

/-- The trailing-punctuation set of `_normalize_name`:  `" .,;:-–—"`. -/
def NORM_PUNCT : List Char := " .,;:-–—".data

/-- One iteration of the suffix-stripping loop:
`if n.endswith(suffix): n = n[:-len(suffix)].rstrip()`. -/
def stripSuffixStep (n : List Char) (suffix : List Char) : List Char :=
  if suffix.isSuffixOf n then
    rstripP pyIsSpace (n.take (n.length - suffix.length))
  else n

/-- Function `_normalize_name` on the underlying character list. -/
def normalizeList (l : List Char) : List Char :=
  rstripP (fun c => c ∈ NORM_PUNCT)
    (LEGAL_SUFFIXES.foldl stripSuffixStep
      (stripP pyIsSpace (l.map pyLowerChar)))

/-- Function `_normalize_name` from `scoring/matcher.py`:
lowercase, strip, strip legal suffixes, strip trailing punctuation. -/
def _normalize_name (s : String) : String :=
  ⟨normalizeList s.data⟩

/-! ### Supporting lemmas for the idempotence analysis of `_normalize_name` -/

theorem toLower_ofNat_add32 (n : Nat) (h1 : 65 ≤ n) (h2 : n ≤ 90) :
    Char.toLower (Char.ofNat (n + 32)) = Char.ofNat (n + 32) := by
  interval_cases n <;> decide

theorem toLower_toLower (c : Char) :
    Char.toLower (Char.toLower c) = Char.toLower c := by
  by_cases h : c.toNat ≥ 65 ∧ c.toNat ≤ 90
  · have hl : Char.toLower c = Char.ofNat (c.toNat + 32) := by
      unfold Char.toLower
      rw [if_pos h]
    rw [hl]
    exact toLower_ofNat_add32 c.toNat h.1 h.2
  · have hl : Char.toLower c = c := by
      unfold Char.toLower
      rw [if_neg h]
    rw [hl, hl]

/-- Membership in a `rstripP` result implies membership in the input. -/
theorem mem_of_mem_rstripP {c : Char} {p : Char → Bool} {l : List Char}
    (h : c ∈ rstripP p l) : c ∈ l := by
  unfold rstripP at h
  rw [List.mem_reverse] at h
  have := List.dropWhile_sublist (l := l.reverse) p
  have h2 := this.mem h
  rwa [List.mem_reverse] at h2

/-- Membership in a `stripP` result implies membership in the input. -/
theorem mem_of_mem_stripP {c : Char} {p : Char → Bool} {l : List Char}
    (h : c ∈ stripP p l) : c ∈ l := by
  unfold stripP at h
  have h1 := mem_of_mem_rstripP h
  exact (List.dropWhile_sublist p).mem h1

/-- Membership in a suffix-loop step result implies membership in the input. -/
theorem mem_of_mem_stripSuffixStep {c : Char} {n suffix : List Char}
    (h : c ∈ stripSuffixStep n suffix) : c ∈ n := by
  unfold stripSuffixStep at h
  split at h
  · exact (List.take_sublist _ _).mem (mem_of_mem_rstripP h)
  · exact h

theorem mem_of_mem_suffixFold {c : Char} :
    ∀ (sufs : List (List Char)) (n : List Char),
      c ∈ sufs.foldl stripSuffixStep n → c ∈ n := by
  intro sufs
  induction sufs with
  | nil => intro n h; exact h
  | cons s ss ih =>
      intro n h
      exact mem_of_mem_stripSuffixStep (ih (stripSuffixStep n s) h)

/-- Every character of a normalized name is fixed by `pyLowerChar`. -/
theorem normalizeList_lower_fixed {c : Char} {l : List Char}
    (h : c ∈ normalizeList l) : pyLowerChar c = c := by
  unfold normalizeList at h
  have h1 := mem_of_mem_rstripP h
  have h2 := mem_of_mem_suffixFold _ _ h1
  have h3 := mem_of_mem_stripP h2
  obtain ⟨d, _, hd⟩ := List.mem_map.mp h3
  rw [← hd]
  exact toLower_toLower d

theorem map_lower_normalizeList (l : List Char) :
    (normalizeList l).map pyLowerChar = normalizeList l := by
  conv_rhs => rw [← List.map_id (normalizeList l)]
  exact List.map_congr_left (fun c hc => normalizeList_lower_fixed hc)

/-- Predicate `listPre y z`: `y` is an initial segment of `z`. -/
def listPre (y z : List Char) : Prop := ∃ t, y ++ t = z

theorem listPre_refl (l : List Char) : listPre l l := ⟨[], List.append_nil l⟩

theorem listPre_trans {a b c : List Char} (h1 : listPre a b) (h2 : listPre b c) :
    listPre a c := by
  obtain ⟨t1, ht1⟩ := h1
  obtain ⟨t2, ht2⟩ := h2
  exact ⟨t1 ++ t2, by rw [← List.append_assoc, ht1, ht2]⟩

theorem listPre_take (n : Nat) (l : List Char) : listPre (l.take n) l :=
  ⟨l.drop n, List.take_append_drop n l⟩

theorem listPre_rstripP (p : Char → Bool) (l : List Char) :
    listPre (rstripP p l) l := by
  refine ⟨(l.reverse.takeWhile p).reverse, ?_⟩
  unfold rstripP
  rw [← List.reverse_append, List.takeWhile_append_dropWhile, List.reverse_reverse]

theorem listPre_stripSuffixStep (n suffix : List Char) :
    listPre (stripSuffixStep n suffix) n := by
  unfold stripSuffixStep
  split
  · exact listPre_trans (listPre_rstripP _ _) (listPre_take _ _)
  · exact listPre_refl n

theorem listPre_suffixFold :
    ∀ (sufs : List (List Char)) (n : List Char),
      listPre (sufs.foldl stripSuffixStep n) n := by
  intro sufs
  induction sufs with
  | nil => intro n; exact listPre_refl n
  | cons s ss ih =>
      intro n
      exact listPre_trans (ih (stripSuffixStep n s)) (listPre_stripSuffixStep n s)

/-- A normalized name is an initial segment of the stripped lowered input. -/
theorem listPre_normalizeList (l : List Char) :
    listPre (normalizeList l) (stripP pyIsSpace (l.map pyLowerChar)) := by
  unfold normalizeList
  exact listPre_trans (listPre_rstripP _ _) (listPre_suffixFold _ _)

/-- If a list is an initial segment of a list fixed by `dropWhile p`,
then it is itself fixed by `dropWhile p`. -/
theorem dropWhile_eq_self_of_listPre {p : Char → Bool} {y z : List Char}
    (hpre : listPre y z) (hz : z.dropWhile p = z) : y.dropWhile p = y := by
  cases y with
  | nil => rfl
  | cons c t =>
      obtain ⟨u, hu⟩ := hpre
      have hc : p c = false := by
        by_contra hpc
        rw [Bool.not_eq_false] at hpc
        rw [← hu, List.cons_append, List.dropWhile_cons_of_pos hpc] at hz
        have h1 := (List.dropWhile_sublist (l := t ++ u) p).length_le
        have h2 := congrArg List.length hz
        simp only [List.length_cons, List.length_append] at h1 h2
        omega
      rw [List.dropWhile_cons_of_neg (by simp [hc])]

theorem dropWhile_dropWhile (p : Char → Bool) (l : List Char) :
    (l.dropWhile p).dropWhile p = l.dropWhile p := by
  induction l with
  | nil => rfl
  | cons c t ih =>
      by_cases hc : p c
      · rw [List.dropWhile_cons_of_pos hc]; exact ih
      · rw [List.dropWhile_cons_of_neg hc, List.dropWhile_cons_of_neg hc]

/-- If the last element of `l` fails `p`, right-stripping is a no-op. -/
theorem rstripP_eq_self {p : Char → Bool} {l : List Char}
    (h : ∀ c, l.getLast? = some c → p c = false) : rstripP p l = l := by
  unfold rstripP
  suffices hs : l.reverse.dropWhile p = l.reverse by
    rw [hs, List.reverse_reverse]
  cases hrev : l.reverse with
  | nil => rfl
  | cons c t =>
      have hlast : l.getLast? = some c := by
        rw [← List.head?_reverse, hrev]; rfl
      rw [List.dropWhile_cons_of_neg (by simp [h c hlast])]

/-- Right-stripping is idempotent. -/
theorem rstripP_rstripP (p : Char → Bool) (l : List Char) :
    rstripP p (rstripP p l) = rstripP p l := by
  unfold rstripP
  rw [List.reverse_reverse, dropWhile_dropWhile]

/-- The suffix loop is a no-op when no listed suffix matches. -/
theorem suffixFold_eq_self {n : List Char} :
    ∀ (sufs : List (List Char)),
      (∀ s ∈ sufs, s.isSuffixOf n = false) → sufs.foldl stripSuffixStep n = n := by
  intro sufs
  induction sufs with
  | nil => intro _; rfl
  | cons s ss ih =>
      intro h
      have hstep : stripSuffixStep n s = n := by
        unfold stripSuffixStep
        rw [h s (List.mem_cons_self s ss)]
        simp
      rw [List.foldl_cons, hstep]
      exact ih (fun s' hs' => h s' (List.mem_cons_of_mem s hs'))

/-- Strip from both sides is a no-op on a normalized name whose last
character is not whitespace. -/
theorem stripP_normalize_eq_self {x : List Char}
    (h2 : ∀ c, (normalizeList x).getLast? = some c → pyIsSpace c = false) :
    stripP pyIsSpace (normalizeList x) = normalizeList x := by
  have hmid : ((x.map pyLowerChar).dropWhile pyIsSpace).dropWhile pyIsSpace
      = (x.map pyLowerChar).dropWhile pyIsSpace := dropWhile_dropWhile _ _
  have hpre : listPre (normalizeList x) ((x.map pyLowerChar).dropWhile pyIsSpace) := by
    have h1 := listPre_normalizeList x
    unfold stripP at h1
    exact listPre_trans h1 (listPre_rstripP _ _)
  have hdrop : (normalizeList x).dropWhile pyIsSpace = normalizeList x :=
    dropWhile_eq_self_of_listPre hpre hmid
  unfold stripP
  rw [hdrop]
  exact rstripP_eq_self h2

/-- C1 (amended): `_normalize_name` is idempotent for every string `x` whose
normalized form neither ends in a legal suffix nor in a whitespace
character; full idempotence fails because stripping a suffix (or trailing
punctuation) can expose another legal suffix, which only a second
application removes. -/
theorem normalize_idem_cond (x : String)
    (h1 : ∀ s ∈ LEGAL_SUFFIXES, s.isSuffixOf (_normalize_name x).data = false)
    (h2 : ∀ c, (_normalize_name x).data.getLast? = some c → pyIsSpace c = false) :
    _normalize_name (_normalize_name x) = _normalize_name x := by
  unfold _normalize_name at h1 h2 ⊢
  simp only at h1 h2
  suffices hs : normalizeList (normalizeList x.data) = normalizeList x.data by
    simp [hs]
  conv_lhs => rw [normalizeList]
  rw [map_lower_normalizeList, stripP_normalize_eq_self h2,
    suffixFold_eq_self LEGAL_SUFFIXES h1]
  conv_lhs => rw [show normalizeList x.data = rstripP (fun c => c ∈ NORM_PUNCT)
    (LEGAL_SUFFIXES.foldl stripSuffixStep
      (stripP pyIsSpace (x.data.map pyLowerChar))) from rfl]
  rw [rstripP_rstripP]
  rfl

/-- C1 counterexample: `_normalize_name` is not idempotent as claimed.
`_normalize_name "x ag ag" = "x ag"` (the first `" ag"` strip exposes a
second `" ag"`, and the suffix loop has already passed that entry), while a
second application gives `"x"`. -/
theorem normalize_not_idempotent :
    _normalize_name (_normalize_name "x ag ag") ≠ _normalize_name "x ag ag" := by
  decide

/-- Witness for C1's amended theorem at `x = "Acme Inc."`
(normalized form `"acme"`, which ends in neither a suffix nor whitespace). -/
theorem normalize_idem_cond_witness :
    _normalize_name (_normalize_name "Acme Inc.") = _normalize_name "Acme Inc." :=
  normalize_idem_cond "Acme Inc." (by decide) (by decide)

/-! ## `scoring/matcher.py` — fuzzy matching -/

/-- Constant `MIN_CONTAINMENT_LEN` from `scoring/matcher.py`. -/
def MIN_CONTAINMENT_LEN : Nat := 6

/-- Constant `GENERIC_DOMAINS` from `scoring/matcher.py` (generic hosting domains —
never match on these). -/
def GENERIC_DOMAINS : List String :=
  ["github.io", "github.com", "gitlab.com", "vercel.app",
   "netlify.app", "herokuapp.com", "linkedin.com", "twitter.com",
   "facebook.com", "medium.com", "wordpress.com"]

/-- The title-start patterns of `_is_likely_title`. -/
def TITLE_STARTS : List String :=
  ["i built", "show hn", "launch hn", "ask hn",
   "tell hn", "a ", "an ", "the ", "my ", "we ",
   "how ", "why ", "if ", "what "]

/-- Function `_is_likely_title` from `scoring/matcher.py`: HN post titles that are not
company names. -/
def _is_likely_title (name : String) : Bool :=
  let lower := name.data.map pyLowerChar
  TITLE_STARTS.any (fun p => pyStartsWith p.data lower)
    || pyWordCount name.data > 6

/-! ### `_extract_domain` — model of `urllib.parse.urlparse(url).hostname`

`urlsplit` recognises a scheme (an alphabetic character followed by
alphanumerics/`+`/`-`/`.`, up to a `:`), takes the netloc only when the
remainder starts with `//`, and `hostname` drops the userinfo (text up to the
last `@`), drops a `:port`, handles a bracketed IPv6 literal (an unmatched
`[` raises `ValueError`, which `_extract_domain` catches), and lowercases. -/

def isSchemeChar (c : Char) : Bool :=
  c.isAlphanum || c = '+' || c = '-' || c = '.'

/-- Drop a leading `scheme:` if present. -/
def dropScheme (l : List Char) : List Char :=
  match l.findIdx? (fun c => c = ':') with
  | none => l
  | some i =>
      match l with
      | [] => l
      | c0 :: _ =>
          if 0 < i && c0.isAlpha && (l.take i).all isSchemeChar then
            l.drop (i + 1)
          else l

/-- The netloc of `urlsplit`: present only when the (scheme-stripped) URL
starts with `//`; extends to the next `/`, `?` or `#`. -/
def urlNetloc (l : List Char) : List Char :=
  let r := dropScheme l
  if pyStartsWith "//".data r then
    (r.drop 2).takeWhile (fun c => !(c = '/' || c = '?' || c = '#'))
  else []

/-- Model of `urlparse(url).hostname` (lowercased; `none` models both a missing
hostname and a `ValueError` from an unmatched IPv6 bracket). -/
def urlHostname (l : List Char) : Option (List Char) :=
  let netloc := urlNetloc l
  let afterUser :=
    match (netloc.reverse.splitOn '@').head? with
    | some rev => rev.reverse
    | none => netloc
  match afterUser with
  | '[' :: rest =>
      if rest.any (fun c => c = ']') then
        some ((rest.takeWhile (fun c => !(c = ']'))).map pyLowerChar)
      else none
  | _ =>
      let host := afterUser.takeWhile (fun c => !(c = ':'))
      if host.isEmpty then none else some (host.map pyLowerChar)

/-- Function `_extract_domain` from `scoring/matcher.py`: hostname of the URL with a
leading `www.` stripped; `none` for a missing/empty URL or hostname. -/
def _extract_domain (url : Option String) : Option String :=
  match url with
  | none => none
  | some u =>
      if u = "" then none
      else
        match urlHostname u.data with
        | none => none
        | some host =>
            let host' := if pyStartsWith "www.".data host then host.drop 4 else host
            if host'.isEmpty then none else some ⟨host'.map pyLowerChar⟩

/-- Character bigrams of a string, as a deduplicated list (Python builds a
set of two-character slices). -/
def bigrams (a : List Char) : List (Char × Char) :=
  (a.zip a.tail).dedup

/-- Function `_bigram_similarity` from `scoring/matcher.py` (Dice coefficient):
the float `(2 * len(intersection)) / total` is modelled exactly as the
rational `mkRat (2 * |inter|) total` (`mkRat n d` is the quotient `n / d`,
in a kernel-computable form). -/
def _bigram_similarity (a b : List Char) : ℚ :=
  if a.isEmpty || b.isEmpty || a.length < 2 || b.length < 2 then 0
  else
    let ba := bigrams a
    let bb := bigrams b
    let inter := ba.filter (fun x => x ∈ bb)
    let total := ba.length + bb.length
    if total ≠ 0 then mkRat (2 * inter.length) total else 0

/-- The distinct match reasons returned by `_is_fuzzy_match`. -/
inductive MatchReason where
  | exactName : MatchReason
  | sameDomain : String → MatchReason
  | containment : MatchReason
  | noMatch : MatchReason
deriving DecidableEq

/-- The literal reason strings of `scoring/matcher.py`. -/
def MatchReason.text : MatchReason → String
  | .exactName => "exact name match (after suffix normalization)"
  | .sameDomain d => "same domain (" ++ d ++ ")"
  | .containment => "name containment match"
  | .noMatch => ""

/-- Function `_is_fuzzy_match` from `scoring/matcher.py`. Decision order: title
filter, exact normalized name, shared non-generic domain with bigram
similarity ≥ 0.3, containment. -/
def _is_fuzzy_match (name_a name_b : String) (website_a website_b : Option String) :
    Bool × MatchReason :=
  if _is_likely_title name_a || _is_likely_title name_b then (false, .noMatch)
  else
    let na := normalizeList name_a.data
    let nb := normalizeList name_b.data
    if na = nb then (true, .exactName)
    else
      match _extract_domain website_a, _extract_domain website_b with
      | some dom_a, some dom_b =>
          if dom_a = dom_b && dom_a ∉ GENERIC_DOMAINS
              && _bigram_similarity na nb ≥ mkRat 3 10 then
            (true, .sameDomain dom_a)
          else containmentCheck na nb
      | _, _ => containmentCheck na nb
where
  /-- The containment block (lines 120–133): both normalized names at least
  `MIN_CONTAINMENT_LEN` long, one inside the other, extra length ≤ 5. -/
  containmentCheck (na nb : List Char) : Bool × MatchReason :=
    if na.length ≥ MIN_CONTAINMENT_LEN && nb.length ≥ MIN_CONTAINMENT_LEN then
      if pySubstr na nb && nb.length - na.length ≤ 5 then (true, .containment)
      else if pySubstr nb na && na.length - nb.length ≤ 5 then (true, .containment)
      else (false, .noMatch)
    else (false, .noMatch)

/-! ### Claims about the domain rule and the containment rule -/

/-- Guard of the domain rule of `_is_fuzzy_match` (lines 112–118): both
hostnames extracted, equal, not denylisted, and bigram similarity of the
normalized names at least 0.3. -/
def domainRuleFires (na nb : List Char) (wa wb : Option String) : Bool :=
  match _extract_domain wa, _extract_domain wb with
  | some dom_a, some dom_b =>
      dom_a = dom_b && dom_a ∉ GENERIC_DOMAINS
        && _bigram_similarity na nb ≥ mkRat 3 10
  | _, _ => false

theorem containmentCheck_snd_ne_sameDomain (na nb : List Char) (d : String) :
    (_is_fuzzy_match.containmentCheck na nb).2 ≠ .sameDomain d := by
  unfold _is_fuzzy_match.containmentCheck
  split
  · split
    · simp
    · split <;> simp
  · simp

/-- C2 (amended): a match is produced via the domain rule only when both
websites yield the same extracted hostname, that exact hostname is not a
member of the generic-hosting denylist, and the bigram similarity of the
normalized names is at least 0.3.  (The denylist test is exact hostname
membership: a hostname lying under a denylisted domain, such as
`myproject.github.io`, is not blocked — see the counterexample.) -/
theorem domain_match_characterization (name_a name_b : String)
    (website_a website_b : Option String) (d : String)
    (h : (_is_fuzzy_match name_a name_b website_a website_b).2 = .sameDomain d) :
    _extract_domain website_a = some d ∧ _extract_domain website_b = some d ∧
      d ∉ GENERIC_DOMAINS ∧
      _bigram_similarity (normalizeList name_a.data) (normalizeList name_b.data)
        ≥ mkRat 3 10 := by
  unfold _is_fuzzy_match at h
  split at h
  · simp at h
  · split at h
    · rename_i da db hda hdb
      dsimp only at h
      split at h
      · simp at h
      · split at h
        · rename_i hcond
          simp only [Bool.and_eq_true, decide_eq_true_eq] at hcond
          obtain ⟨⟨hab, hgen⟩, hsim⟩ := hcond
          have hd : da = d := by simpa using h
          subst hd
          exact ⟨hda, by rw [hdb, hab], hgen, hsim⟩
        · exact absurd h (containmentCheck_snd_ne_sameDomain _ _ d)
    · dsimp only at h
      split at h
      · simp at h
      · exact absurd h (containmentCheck_snd_ne_sameDomain _ _ d)

/-- C2 counterexample: two companies whose websites both resolve to the
hostname `a.github.io` — a host under the denylisted generic domain
`github.io` — do match via the domain rule, because the denylist is tested
by exact hostname membership, not by suffix. -/
theorem domain_match_generic_subdomain :
    _is_fuzzy_match "frobo corp" "frobx ltd"
        (some "https://a.github.io") (some "http://a.github.io")
      = (true, .sameDomain "a.github.io")
    ∧ "github.io" ∈ GENERIC_DOMAINS
    ∧ ".github.io".data.isSuffixOf "a.github.io".data = true := by
  decide

/-- Witness for C2's amended theorem at a concrete domain-rule match. -/
theorem domain_match_characterization_witness :
    _extract_domain (some "https://x.com") = some "x.com"
    ∧ _extract_domain (some "http://x.com") = some "x.com"
    ∧ "x.com" ∉ GENERIC_DOMAINS
    ∧ _bigram_similarity (normalizeList "frobo corp".data)
        (normalizeList "frobx ltd".data) ≥ mkRat 3 10 :=
  domain_match_characterization "frobo corp" "frobx ltd"
    (some "https://x.com") (some "http://x.com") "x.com" (by decide)

theorem containmentCheck_eq_iff (na nb : List Char) :
    _is_fuzzy_match.containmentCheck na nb = (true, .containment) ↔
      (MIN_CONTAINMENT_LEN ≤ na.length ∧ MIN_CONTAINMENT_LEN ≤ nb.length ∧
        ((pySubstr na nb = true ∧ nb.length - na.length ≤ 5) ∨
         (pySubstr nb na = true ∧ na.length - nb.length ≤ 5))) := by
  unfold _is_fuzzy_match.containmentCheck
  split
  · rename_i hlen
    simp only [Bool.and_eq_true, decide_eq_true_eq] at hlen
    split
    · rename_i hsub
      simp only [Bool.and_eq_true, decide_eq_true_eq] at hsub
      simp [hlen, hsub]
    · rename_i hsub
      split
      · rename_i hsub2
        simp only [Bool.and_eq_true, decide_eq_true_eq] at hsub2
        simp [hlen, hsub2]
      · rename_i hsub2
        simp only [Bool.and_eq_true, decide_eq_true_eq, not_and] at hsub hsub2
        constructor
        · intro h; simp at h
        · intro ⟨_, _, hc⟩
          rcases hc with ⟨h1, h2⟩ | ⟨h1, h2⟩
          · exact absurd h2 (hsub h1)
          · exact absurd h2 (hsub2 h1)
  · rename_i hlen
    simp only [Bool.and_eq_true, decide_eq_true_eq, not_and] at hlen
    constructor
    · intro h; simp at h
    · intro ⟨h1, h2, _⟩
      exact absurd h2 (hlen h1)

theorem fuzzy_eq_containment_iff (a b : String) (wa wb : Option String) :
    _is_fuzzy_match a b wa wb = (true, .containment) ↔
      (_is_likely_title a = false ∧ _is_likely_title b = false ∧
       normalizeList a.data ≠ normalizeList b.data ∧
       domainRuleFires (normalizeList a.data) (normalizeList b.data) wa wb = false ∧
       _is_fuzzy_match.containmentCheck (normalizeList a.data) (normalizeList b.data)
         = (true, .containment)) := by
  unfold _is_fuzzy_match domainRuleFires
  split
  · rename_i ht
    simp only [Bool.or_eq_true] at ht
    constructor
    · intro h; simp at h
    · intro ⟨h1, h2, _⟩
      rw [h1, h2] at ht
      simp at ht
  · rename_i ht
    simp only [Bool.or_eq_true, not_or, Bool.not_eq_true] at ht
    split
    · rename_i da db hda hdb
      dsimp only
      split
      · rename_i hnab
        constructor
        · intro h; simp at h
        · intro ⟨_, _, hne, _⟩
          exact absurd hnab hne
      · rename_i hnab
        split
        · rename_i hcond
          constructor
          · intro h; simp at h
          · intro ⟨_, _, _, hdom, _⟩
            rw [hcond] at hdom
            simp at hdom
        · rename_i hcond
          simp only [Bool.not_eq_true] at hcond
          constructor
          · intro h
            refine ⟨ht.1, ht.2, hnab, ?_, h⟩
            exact hcond
          · intro ⟨_, _, _, _, hcont⟩
            exact hcont
    · rename_i hmatch
      dsimp only
      split
      · rename_i hnab
        constructor
        · intro h; simp at h
        · intro ⟨_, _, hne, _⟩
          exact absurd hnab hne
      · rename_i hnab
        have hdom : (match _extract_domain wa, _extract_domain wb with
            | some dom_a, some dom_b =>
                dom_a = dom_b && dom_a ∉ GENERIC_DOMAINS
                  && _bigram_similarity (normalizeList a.data) (normalizeList b.data)
                    ≥ mkRat 3 10
            | _, _ => false) = false := by
          cases hwa : _extract_domain wa with
          | none => rfl
          | some da =>
              cases hwb : _extract_domain wb with
              | none => rfl
              | some db => exact absurd (hmatch da db hwa hwb) (fun hf => hf)
        simp [ht.1, ht.2, hnab, hdom]

/-- C6 (amended): `_is_fuzzy_match` reports "name containment match" exactly
when both normalized names are at least 6 characters long, one is a
substring of the other with a length difference of at most 5, AND no earlier
rule preempted it: neither name looks like a post title, the normalized
names are not equal (else the exact-name rule fires), and the domain rule
did not fire.  In particular `is_match("NovaMind", "NovaMind AI", ...)` is a
containment match and `is_match("AI", "AI Labs", ...)` is no match. -/
theorem containment_rule_characterization :
    (∀ (a b : String) (wa wb : Option String),
      _is_fuzzy_match a b wa wb = (true, .containment) ↔
        (_is_likely_title a = false ∧ _is_likely_title b = false ∧
         normalizeList a.data ≠ normalizeList b.data ∧
         domainRuleFires (normalizeList a.data) (normalizeList b.data) wa wb = false ∧
         (MIN_CONTAINMENT_LEN ≤ (normalizeList a.data).length ∧
          MIN_CONTAINMENT_LEN ≤ (normalizeList b.data).length ∧
          ((pySubstr (normalizeList a.data) (normalizeList b.data) = true ∧
              (normalizeList b.data).length - (normalizeList a.data).length ≤ 5) ∨
           (pySubstr (normalizeList b.data) (normalizeList a.data) = true ∧
              (normalizeList a.data).length - (normalizeList b.data).length ≤ 5)))))
    ∧ _is_fuzzy_match "NovaMind" "NovaMind AI" none none = (true, .containment)
    ∧ (_is_fuzzy_match "AI" "AI Labs" none none).1 = false := by
  refine ⟨fun a b wa wb => ?_, by decide, by decide⟩
  rw [fuzzy_eq_containment_iff, containmentCheck_eq_iff]

/-- C6 counterexample: for the pair `("abcdef", "abcdef")` the claimed
containment conditions hold (both normalized names have length 6, one is a
substring of the other, length difference 0 ≤ 5), yet the reported reason is
the exact-name rule, not "name containment match" — the claimed "exactly
when" is false. -/
theorem containment_conditions_without_containment_reason :
    (_is_fuzzy_match "abcdef" "abcdef" none none).2 ≠ .containment
    ∧ (_is_fuzzy_match "abcdef" "abcdef" none none).1 = true
    ∧ MIN_CONTAINMENT_LEN ≤ (normalizeList "abcdef".data).length
    ∧ pySubstr (normalizeList "abcdef".data) (normalizeList "abcdef".data) = true
    ∧ (normalizeList "abcdef".data).length - (normalizeList "abcdef".data).length ≤ 5 := by
  decide

/-! ## The persistence store

Rows of the three tables, with the columns the engine reads (columns the
matching/scoring code never touches — `source_type`, `source_url`, `title`,
`first_detected`, `last_updated`, `program_type`, `program_country`,
`funding_amount`, timestamps of row creation — are omitted). -/

/-- Parse outcome of the JSON `metadata` column as consumed by `_hn_stats`:
`absent` is a NULL/empty blob, `malformed` a blob on which `json.loads` /
`int(...)` raises (both yield `(0, 0)`), and `parsed points num_comments`
a well-formed object (Python's `.get(..., 0)` defaults are folded into the
parsed values). -/
inductive Metadata where
  | absent : Metadata
  | malformed : Metadata
  | parsed : Int → Int → Metadata
deriving DecidableEq

structure Company where
  id : Nat
  name : String
  description : Option String
  sector : Option String
  geography : Option String
  city : Option String
  website : Option String
  stage : Option String
  heat_score : Int
  previous_heat_score : Option Int
deriving DecidableEq

structure Signal where
  id : Nat
  company_id : Nat
  source_name : String
  signal_layer : String
  metadata : Metadata
  detected_at : Option String
deriving DecidableEq

structure ProgramRow where
  id : Nat
  company_id : Nat
  program_name : String
  cohort : Option String
  detected_at : Option String
deriving DecidableEq

structure Store where
  companies : List Company
  signals : List Signal
  programs : List ProgramRow
deriving DecidableEq

/-- Python truthiness of a nullable string column: `None` and `""` are falsy. -/
def pyFalsy : Option String → Bool
  | none => true
  | some s => s = ""

def truthy (o : Option String) : Bool := !(pyFalsy o)

/-- Insertion step of insertion sort. -/
def insertSortedBy (le : α → α → Bool) (a : α) : List α → List α
  | [] => [a]
  | b :: t => if le a b then a :: b :: t else b :: insertSortedBy le a t

/-- Insertion sort (used to model `ORDER BY id` and Python `sorted`). -/
def sortListBy (le : α → α → Bool) (l : List α) : List α :=
  l.foldr (insertSortedBy le) []

/-- Function `_company_richness` from `scoring/matcher.py`: how much data a
company record has. -/
def _company_richness (c : Company) : Nat :=
  (if truthy c.description then 2 else 0) +
  (if truthy c.website then 2 else 0) +
  (if truthy c.city then 1 else 0) +
  (if truthy c.sector && c.sector ≠ some "Other" then 1 else 0) +
  (if truthy c.geography && c.geography ≠ some "Unknown"
      && c.geography ≠ some "Europe" then 1 else 0) +
  (if truthy c.stage && c.stage ≠ some "Unknown" then 1 else 0)

/-- Function `_merge_companies` from `scoring/matcher.py`.  `keep` and
`remove` are the (possibly stale) row dictionaries held by the caller: the
fill-the-gaps decisions read them, while the updates are applied to the
current store.  Signals and programs of `remove` are re-parented to `keep`
and the `remove` row is deleted. -/
def _merge_companies (keep remove : Company) (db : Store) : Store :=
  let upd := fun (c : Company) =>
    if c.id = keep.id then
      { c with
        description :=
          if pyFalsy keep.description && truthy remove.description then
            remove.description else c.description
        website :=
          if pyFalsy keep.website && truthy remove.website then
            remove.website else c.website
        city :=
          if pyFalsy keep.city && truthy remove.city then
            remove.city else c.city
        sector :=
          if (keep.sector = none ∨ keep.sector = some "Other")
              ∧ ¬(remove.sector = none ∨ remove.sector = some "Other") then
            remove.sector else c.sector
        geography :=
          if (keep.geography = none ∨ keep.geography = some "Unknown")
              ∧ ¬(remove.geography = none ∨ remove.geography = some "Unknown") then
            remove.geography else c.geography }
    else c
  { companies := (db.companies.map upd).filter (fun c => c.id ≠ remove.id)
    signals := db.signals.map (fun s =>
      if s.company_id = remove.id then { s with company_id := keep.id } else s)
    programs := db.programs.map (fun p =>
      if p.company_id = remove.id then { p with company_id := keep.id } else p) }

/-! ### `find_potential_matches` -/

/-- Ordered bucket map (Python `defaultdict` preserves key insertion order). -/
def bucketAdd (k : String) (c : Company) :
    List (String × List Company) → List (String × List Company)
  | [] => [(k, [c])]
  | (k', cs) :: t =>
      if k' = k then (k', cs ++ [c]) :: t else (k', cs) :: bucketAdd k c t

/-- Index by the first 4 characters of the normalized name (names shorter
than 4 characters are not bucketed). -/
def nameBuckets (companies : List Company) : List (String × List Company) :=
  companies.foldl
    (fun bs c =>
      let norm := normalizeList c.name.data
      if norm.length ≥ 4 then bucketAdd ⟨norm.take 4⟩ c bs else bs)
    []

/-- Index by extracted website domain, excluding generic domains. -/
def domainBuckets (companies : List Company) : List (String × List Company) :=
  companies.foldl
    (fun bs c =>
      match _extract_domain c.website with
      | some dom => if dom ∉ GENERIC_DOMAINS then bucketAdd dom c bs else bs
      | none => bs)
    []

/-- All ordered pairs `(cs[i], cs[j])` with `i < j` in loop order. -/
def bucketPairs : List Company → List (Company × Company)
  | [] => []
  | c :: t => t.map (fun d => (c, d)) ++ bucketPairs t

/-- Mutable state of one `find_potential_matches` pass. -/
structure MatchState where
  seen : List (Nat × Nat)
  deleted : List Nat
  store : Store
  merged : List (String × String × String)

/-- Inner function `try_merge` of `find_potential_matches`: skip self-pairs,
already-seen pairs and pairs touching an id consumed by an earlier merge;
otherwise consult `_is_fuzzy_match`, pick the survivor by richness (ties
favour `ca`) and merge. -/
def try_merge (st : MatchState) (ca cb : Company) : MatchState :=
  if ca.id = cb.id then st
  else
    let pair := (min ca.id cb.id, max ca.id cb.id)
    if pair ∈ st.seen then st
    else
      let st' := { st with seen := pair :: st.seen }
      if ca.id ∈ st'.deleted || cb.id ∈ st'.deleted then st'
      else
        let m := _is_fuzzy_match ca.name cb.name ca.website cb.website
        if m.1 = false then st'
        else
          let kr := if _company_richness ca ≥ _company_richness cb
                    then (ca, cb) else (cb, ca)
          { st' with
            store := _merge_companies kr.1 kr.2 st'.store
            deleted := kr.2.id :: st'.deleted
            merged := st'.merged ++ [(kr.1.name, kr.2.name, m.2.text)] }

/-- Function `find_potential_matches` from `scoring/matcher.py`: find and
merge fuzzy-duplicate companies.  Returns the merge report (kept name,
removed name, reason) and the resulting store. -/
def find_potential_matches (db : Store) : List (String × String × String) × Store :=
  let companies := sortListBy (fun a b => a.id ≤ b.id) db.companies
  let pairs :=
    ((nameBuckets companies).map (fun kv => bucketPairs kv.2)).flatten
      ++ ((domainBuckets companies).map (fun kv => bucketPairs kv.2)).flatten
  let final := pairs.foldl (fun st p => try_merge st p.1 p.2)
    ⟨[], [], db, []⟩
  (final.merged, final.store)

/-! ### Claims about consolidation -/

/-- One `try_merge` step either leaves both the store and the merge report
unchanged, or appends exactly one entry to the merge report. -/
theorem try_merge_cases (st : MatchState) (ca cb : Company) :
    ((try_merge st ca cb).store = st.store ∧ (try_merge st ca cb).merged = st.merged)
    ∨ ∃ e, (try_merge st ca cb).merged = st.merged ++ [e] := by
  unfold try_merge
  dsimp only
  repeat' split
  all_goals first
    | exact Or.inl ⟨rfl, rfl⟩
    | exact Or.inr ⟨_, rfl⟩

/-- The merge report only grows along the pass. -/
theorem matchFold_merged_mono (pairs : List (Company × Company)) :
    ∀ (st : MatchState),
      ∃ t, (pairs.foldl (fun st p => try_merge st p.1 p.2) st).merged
        = st.merged ++ t := by
  induction pairs with
  | nil => intro st; exact ⟨[], (List.append_nil _).symm⟩
  | cons p ps ih =>
      intro st
      obtain ⟨t, ht⟩ := ih (try_merge st p.1 p.2)
      rcases try_merge_cases st p.1 p.2 with ⟨_, hm⟩ | ⟨e, hm⟩
      · exact ⟨t, by rw [List.foldl_cons, ht, hm]⟩
      · exact ⟨e :: t, by rw [List.foldl_cons, ht, hm, List.append_assoc]; rfl⟩

/-- If the pass reports no merges, it leaves the store untouched. -/
theorem matchFold_store_of_no_merge (pairs : List (Company × Company)) :
    ∀ (st : MatchState),
      (pairs.foldl (fun st p => try_merge st p.1 p.2) st).merged = st.merged →
      (pairs.foldl (fun st p => try_merge st p.1 p.2) st).store = st.store := by
  induction pairs with
  | nil => intro st _; rfl
  | cons p ps ih =>
      intro st h
      rw [List.foldl_cons] at h ⊢
      rcases try_merge_cases st p.1 p.2 with ⟨hs, hm⟩ | ⟨e, hm⟩
      · rw [ih _ (by rw [h, hm]), hs]
      · obtain ⟨t, ht⟩ := matchFold_merged_mono ps (try_merge st p.1 p.2)
        rw [ht, hm, List.append_assoc] at h
        have := congrArg List.length h
        simp at this

/-- C3 counterexample: consolidation is not idempotent.  In the store below,
the first run merges "frobo ag" into "frobo" by exact normalized name and —
since `_merge_companies` fills the keeper's missing website from the
duplicate — the second run then merges "frobx" into "frobo" via the newly
shared domain `x.com`, reporting one further merge. -/
theorem find_potential_matches_not_idempotent :
    (find_potential_matches (find_potential_matches
        ⟨[⟨1, "frobo", some "d", none, none, none, none, none, 1, none⟩,
          ⟨2, "frobo ag", none, none, none, none, some "https://x.com", none, 1, none⟩,
          ⟨3, "frobx", none, none, none, none, some "https://x.com", none, 1, none⟩],
         [], []⟩).2).1 ≠ [] := by
  decide

/-- C3 (amended): a second consolidation run is not in general a no-op (a
merge that fills the keeper's missing website can create a fresh domain
match, as in the counterexample); it does report zero merges whenever the
first run already reported zero merges, since a merge-free pass leaves the
store untouched. -/
theorem find_potential_matches_stable_of_no_merges (db : Store)
    (h : (find_potential_matches db).1 = []) :
    (find_potential_matches (find_potential_matches db).2).1 = [] := by
  have hst : (find_potential_matches db).2 = db := by
    unfold find_potential_matches at h ⊢
    exact matchFold_store_of_no_merge _ _ (by simpa using h)
  rw [hst, h]

/-- Witness for C3's amended theorem: a single-company store merges nothing
on the first run, hence nothing on the second. -/
theorem find_potential_matches_stable_witness :
    (find_potential_matches (find_potential_matches
        ⟨[⟨1, "solo", none, none, none, none, none, none, 1, none⟩], [], []⟩).2).1
      = [] :=
  find_potential_matches_stable_of_no_merges
    ⟨[⟨1, "solo", none, none, none, none, none, none, 1, none⟩], [], []⟩
    (by decide)

/-! ## `scoring/scorer.py` — timestamp parsing

Model of `_parse_ts`, i.e. `datetime.strptime` tried against the four
formats `"%Y-%m-%d %H:%M:%S"`, `"%Y-%m-%dT%H:%M:%SZ"`, `"%Y-%m-%dT%H:%M:%S"`
and `"%Y-%m-%d"`.  CPython's `_strptime` compiles each format to a regex
(`%Y` = exactly four digits; `%m` = `1[0-2]|0[1-9]|[1-9]`; `%d` =
`3[01]|[12]\d|0[1-9]|[1-9]`; `%H` = `2[0-3]|[0-1]\d|\d`; `%M` = `[0-5]\d|\d`;
`%S` = `6[0-1]|[0-5]\d|\d`; a literal blank matches a whitespace run; literal
letters match case-insensitively) and requires a full match; the matched
fields then go through the `datetime` constructor, which raises on an
invalid calendar date, a year 0, or a second above 59 — a failure moves on
to the next format.  Field parsers below return their candidate matches in
regex preference order (two-digit alternatives first), and a format takes
the first full match, mirroring regex backtracking. -/

structure DateTime where
  year : Nat
  month : Nat
  day : Nat
  hour : Nat
  minute : Nat
  second : Nat
deriving DecidableEq

/-- Numeric value of a digit character. -/
def dval (c : Char) : Nat := c.toNat - 48

/-- Candidates for `%Y`: exactly four digits. -/
def candsY (l : List Char) : List (Nat × List Char) :=
  match l with
  | a :: b :: c :: d :: rest =>
      if a.isDigit && b.isDigit && c.isDigit && d.isDigit then
        [(1000 * dval a + 100 * dval b + 10 * dval c + dval d, rest)]
      else []
  | _ => []

/-- Candidates for a one-or-two-digit field: the two-digit alternatives come
first in the `_strptime` regexes, then the one-digit alternative. -/
def cands2or1 (ok2 ok1 : Nat → Bool) (l : List Char) : List (Nat × List Char) :=
  (match l with
   | a :: b :: rest =>
       if a.isDigit && b.isDigit && ok2 (10 * dval a + dval b) then
         [(10 * dval a + dval b, rest)]
       else []
   | _ => []) ++
  (match l with
   | a :: rest => if a.isDigit && ok1 (dval a) then [(dval a, rest)] else []
   | _ => [])

def candsMonth : List Char → List (Nat × List Char) :=
  cands2or1 (fun v => 1 ≤ v && v ≤ 12) (fun v => 1 ≤ v)

def candsDay : List Char → List (Nat × List Char) :=
  cands2or1 (fun v => 1 ≤ v && v ≤ 31) (fun v => 1 ≤ v)

def candsHour : List Char → List (Nat × List Char) :=
  cands2or1 (fun v => v ≤ 23) (fun _ => true)

def candsMinute : List Char → List (Nat × List Char) :=
  cands2or1 (fun v => v ≤ 59) (fun _ => true)

def candsSecond : List Char → List (Nat × List Char) :=
  cands2or1 (fun v => v ≤ 61) (fun _ => true)

/-- One literal character, drawn from `cs` (several entries model the
`IGNORECASE` matching of literal letters). -/
def candsLit (cs : List Char) (l : List Char) : List (Unit × List Char) :=
  match l with
  | c :: rest => if cs.contains c then [((), rest)] else []
  | [] => []

/-- A whitespace run (the regex `\s+` for a literal blank in the format). -/
def candsWS (l : List Char) : List (Unit × List Char) :=
  match l with
  | c :: _ => if pyIsSpace c then [((), l.dropWhile pyIsSpace)] else []
  | [] => []

/-- Full matches of `%Y-%m-%d`, returning the date fields and the rest. -/
def dateMatches (l : List Char) : List ((Nat × Nat × Nat) × List Char) :=
  (candsY l).flatMap fun yr =>
  (candsLit ['-'] yr.2).flatMap fun s1 =>
  (candsMonth s1.2).flatMap fun mo =>
  (candsLit ['-'] mo.2).flatMap fun s2 =>
  (candsDay s2.2).map fun dy =>
  ((yr.1, mo.1, dy.1), dy.2)

/-- Full matches of `%H:%M:%S`, returning the time fields and the rest. -/
def timeMatches (l : List Char) : List ((Nat × Nat × Nat) × List Char) :=
  (candsHour l).flatMap fun hh =>
  (candsLit [':'] hh.2).flatMap fun s1 =>
  (candsMinute s1.2).flatMap fun mi =>
  (candsLit [':'] mi.2).flatMap fun s2 =>
  (candsSecond s2.2).map fun ss =>
  ((hh.1, mi.1, ss.1), ss.2)

def isLeap (y : Nat) : Bool := (y % 4 = 0 && y % 100 ≠ 0) || y % 400 = 0

def daysInMonth (y m : Nat) : Nat :=
  if m = 2 then (if isLeap y then 29 else 28)
  else if m = 4 ∨ m = 6 ∨ m = 9 ∨ m = 11 then 30
  else 31

/-- Validation performed by the `datetime` constructor on the regex-matched
fields (month range is already guaranteed by the regex). -/
def validDT (dt : DateTime) : Bool :=
  1 ≤ dt.year && 1 ≤ dt.month && dt.month ≤ 12
    && 1 ≤ dt.day && dt.day ≤ daysInMonth dt.year dt.month
    && dt.second ≤ 59

/-- Take the first full regex match and validate it (`datetime` raising on
the matched fields fails the whole format, without regex re-matching). -/
def firstValid (cands : List DateTime) : Option DateTime :=
  match cands.head? with
  | some dt => if validDT dt then some dt else none
  | none => none

/-- Format `"%Y-%m-%d %H:%M:%S"`. -/
def parseFmt1 (l : List Char) : Option DateTime :=
  firstValid <|
    (dateMatches l).flatMap fun d =>
    (candsWS d.2).flatMap fun w =>
    (timeMatches w.2).flatMap fun t =>
    if t.2.isEmpty then
      [⟨d.1.1, d.1.2.1, d.1.2.2, t.1.1, t.1.2.1, t.1.2.2⟩]
    else []

/-- Format `"%Y-%m-%dT%H:%M:%SZ"` (literal letters case-insensitive). -/
def parseFmt2 (l : List Char) : Option DateTime :=
  firstValid <|
    (dateMatches l).flatMap fun d =>
    (candsLit ['T', 't'] d.2).flatMap fun w =>
    (timeMatches w.2).flatMap fun t =>
    (candsLit ['Z', 'z'] t.2).flatMap fun z =>
    if z.2.isEmpty then
      [⟨d.1.1, d.1.2.1, d.1.2.2, t.1.1, t.1.2.1, t.1.2.2⟩]
    else []

/-- Format `"%Y-%m-%dT%H:%M:%S"`. -/
def parseFmt3 (l : List Char) : Option DateTime :=
  firstValid <|
    (dateMatches l).flatMap fun d =>
    (candsLit ['T', 't'] d.2).flatMap fun w =>
    (timeMatches w.2).flatMap fun t =>
    if t.2.isEmpty then
      [⟨d.1.1, d.1.2.1, d.1.2.2, t.1.1, t.1.2.1, t.1.2.2⟩]
    else []

/-- Format `"%Y-%m-%d"` (missing time fields default to 0). -/
def parseFmt4 (l : List Char) : Option DateTime :=
  firstValid <|
    (dateMatches l).flatMap fun d =>
    if d.2.isEmpty then [⟨d.1.1, d.1.2.1, d.1.2.2, 0, 0, 0⟩] else []

/-- Function `_parse_ts` from `scoring/scorer.py`: parse a DB timestamp
string to a datetime, or `none` — a falsy (`None`/empty) input and any
parse failure both yield `none`, never an error. -/
def _parse_ts (ts_str : Option String) : Option DateTime :=
  match ts_str with
  | none => none
  | some s =>
      if s = "" then none
      else
        match parseFmt1 s.data with
        | some dt => some dt
        | none =>
            match parseFmt2 s.data with
            | some dt => some dt
            | none =>
                match parseFmt3 s.data with
                | some dt => some dt
                | none => parseFmt4 s.data

/-- Days from 0001-01-01 to January 1 of the given year. -/
def daysBeforeYear (y : Nat) : Nat :=
  let n := y - 1
  365 * n + n / 4 - n / 100 + n / 400

/-- Days from January 1 to the first day of the given month. -/
def daysBeforeMonth (y m : Nat) : Nat :=
  ((List.range (m - 1)).map (fun i => daysInMonth y (i + 1))).sum

/-- Seconds since 0001-01-01 00:00:00 (proleptic Gregorian).  Valid
datetimes compare under `datetime`'s ordering iff their `toSec` values
compare, so the engine's datetime comparisons are modelled over `toSec`. -/
def DateTime.toSec (dt : DateTime) : Int :=
  (((daysBeforeYear dt.year + daysBeforeMonth dt.year dt.month + (dt.day - 1)) * 86400
    + dt.hour * 3600 + dt.minute * 60 + dt.second : Nat) : Int)

/-! ## `scoring/scorer.py` — heat scoring -/

/-- Dictionary `PROGRAM_TIERS` (with the `.get(name, "D")` default). -/
def PROGRAM_TIERS (name : String) : String :=
  if name = "Entrepreneur First" ∨ name = "Seedcamp"
      ∨ name = "Y Combinator" ∨ name = "Techstars" then "A"
  else if name = "Venture Kick" ∨ name = "ETH AI Center" then "B"
  else if name = "Cambridge Enterprise" ∨ name = "Imperial Enterprise Lab" then "C"
  else "D"

/-- Dictionary `TIER_POINTS` (0 is the `.get(..., 0)` default for a key
outside the dictionary, which no reachable call produces). -/
def TIER_POINTS (t : String) : Nat :=
  if t = "A" then 4 else if t = "B" then 3
  else if t = "C" then 2 else if t = "D" then 1 else 0

def PRESS_SOURCES : List String := ["Sifted", "Tech.eu", "TechCrunch", "EU-Startups"]

/-- Function `_get_program_tier`: tier from the dictionary, with the Venture
Kick Stage 2/3 upgrade to A (cohort compared case-insensitively, a missing
cohort treated as `""`). -/
def _get_program_tier (p : ProgramRow) : String :=
  let tier := PROGRAM_TIERS p.program_name
  if p.program_name = "Venture Kick" then
    let cohort := (match p.cohort with | some s => s | none => "").data.map pyLowerChar
    if cohort = "stage 2".data ∨ cohort = "stage 3".data then "A" else tier
  else tier

/-- Function `_hn_stats`: HN points and comment count from the signal
metadata (absent or malformed metadata yields `(0, 0)`). -/
def _hn_stats (s : Signal) : Int × Int :=
  match s.metadata with
  | .parsed points num_comments => (points, num_comments)
  | _ => (0, 0)

/-- Python `x or fallback` for a nullable string (falsy selects the fallback). -/
def pyOr (o : Option String) (fallback : String) : String :=
  match o with
  | some s => if s = "" then fallback else s
  | none => fallback

/-- Python `f"{x}"` of a nullable string (`None` renders as `"None"`). -/
def pyStrOpt : Option String → String
  | some s => s
  | none => "None"

/-- Python `sorted` on strings (code-point lexicographic order). -/
def sortedStrings (l : List String) : List String :=
  sortListBy (fun a b => decide (a < b) || a == b) l

/-- One structured component of the score breakdown (the `"max"` key of the
Python dict is `maxPts` here). -/
structure Component where
  score : Int
  maxPts : Int
  label : String
deriving DecidableEq

structure Components where
  program : Component
  buzz : Component
  sources : Component
  recency : Component
deriving DecidableEq

structure Breakdown where
  total : Int
  reasons : List String
  components : Components
  rising : Bool
deriving DecidableEq

/-- Program-pedigree block of `get_score_breakdown` (lines 125–157):
returns the pedigree points, the component label and the emitted reasons. -/
def pedigreeBlock (programs : List ProgramRow) : Nat × String × List String :=
  if programs.isEmpty then (0, "No program", [])
  else
    let best := programs.foldl
      (fun (acc : String × Option String) p =>
        let tier := _get_program_tier p
        if TIER_POINTS tier > TIER_POINTS acc.1 then
          (tier,
           some (if tier = "A" && p.program_name = "Venture Kick" then
                   "Venture Kick " ++ pyStrOpt p.cohort
                 else p.program_name))
        else acc)
      ("D", none)
    let pedigree := TIER_POINTS best.1
    let uniqueNames := (programs.map (fun p => p.program_name)).dedup
    let program_names := sortedStrings uniqueNames
    let bestLabelOr := fun (fb : String) =>
      match best.2 with
      | some l => if l = "" then fb else l
      | none => fb
    let reason1 := "Program: Tier " ++ best.1 ++ " — "
      ++ bestLabelOr (program_names.headD "") ++ " (+" ++ toString pedigree ++ ")"
    let label0 := "Tier " ++ best.1 ++ " — "
      ++ bestLabelOr (((programs.headD ⟨0, 0, "", none, none⟩).program_name))
    if uniqueNames.length ≥ 2 ∧ pedigree < 4 then
      (min (pedigree + 1) 4,
       label0 ++ " + " ++ toString (uniqueNames.length - 1) ++ " more",
       [reason1, "Multi-program: " ++ String.intercalate ", " program_names ++ " (+1)"])
    else (pedigree, label0, [reason1])

/-- Community-buzz block of `get_score_breakdown` (lines 159–201): HN tier
from the independent maxima of points and comments over HackerNews signals,
+1 for any ProductHunt signal, +1 per distinct press source (in sorted
order), capped at 3. -/
def buzzBlock (signals : List Signal) : Nat × String × List String :=
  let best := signals.foldl
    (fun (acc : Int × Int) s =>
      if s.source_name = "HackerNews" then
        let pc := _hn_stats s
        (max acc.1 pc.1, max acc.2 pc.2)
      else acc)
    (0, 0)
  let hn : Nat × List String × List String :=
    if best.1 ≥ 300 ∨ best.2 ≥ 100 then
      (3, ["HN " ++ toString best.1 ++ "pts"],
       ["HN viral: " ++ toString best.1 ++ "pts, "
          ++ toString best.2 ++ " comments (+3)"])
    else if best.1 ≥ 100 ∨ best.2 ≥ 50 then
      (2, ["HN " ++ toString best.1 ++ "pts"],
       ["HN traction: " ++ toString best.1 ++ "pts, "
          ++ toString best.2 ++ " comments (+2)"])
    else if best.1 > 0 then
      (1, ["HN " ++ toString best.1 ++ "pts"],
       ["HN signal: " ++ toString best.1 ++ "pts (+1)"])
    else (0, [], [])
  let ph := signals.any (fun s => s.source_name = "ProductHunt")
  let press_hits :=
    sortedStrings (((signals.map (fun s => s.source_name)).filter
      (fun n => n ∈ PRESS_SOURCES)).dedup)
  let buzz := hn.1 + (if ph then 1 else 0) + press_hits.length
  let parts := hn.2.1 ++ (if ph then ["ProductHunt"] else []) ++ press_hits
  let reasons := hn.2.2 ++ (if ph then ["ProductHunt launch (+1)"] else [])
    ++ press_hits.map (fun src => "Press: " ++ src ++ " (+1)")
  (min buzz 3,
   if parts.isEmpty then "No buzz signals" else String.intercalate ", " parts,
   reasons)

/-- Cross-source block of `get_score_breakdown` (lines 203–220). -/
def crossBlock (signals : List Signal) : Nat × String × List String :=
  let distinct := (signals.map (fun s => s.source_name)).dedup
  let n := distinct.length
  let cross : Nat := if n ≥ 3 then 2 else if n = 2 then 1 else 0
  let reasons :=
    if n ≥ 3 then ["Cross-source: " ++ toString n ++ " sources (+2)"]
    else if n = 2 then ["Cross-source: " ++ toString n ++ " sources (+1)"]
    else []
  let label0 := toString n ++ " source" ++ (if n ≠ 1 then "s" else "")
  let label :=
    if n > 0 then
      label0 ++ " (" ++ String.intercalate ", " (sortedStrings distinct) ++ ")"
    else label0
  (cross, label, reasons)

/-- One iteration of the `best_recent_dt` accumulation loop: keep the
latest parsed timestamp at or after `sevenDaysAgo`. -/
def recentStep (sevenDaysAgo : Int) (acc : Option Int) (ts : Option String) :
    Option Int :=
  match _parse_ts ts with
  | some dt =>
      if dt.toSec ≥ sevenDaysAgo then
        match acc with
        | none => some dt.toSec
        | some b => if dt.toSec > b then some dt.toSec else acc
      else acc
  | none => acc

/-- Latest qualifying parsed `detected_at` (at or after `sevenDaysAgo`) in a
row list, mirroring the `best_recent_dt` accumulation loop. -/
def bestRecent (stamps : List (Option String)) (sevenDaysAgo : Int) : Option Int :=
  stamps.foldl (recentStep sevenDaysAgo) none

/-- Recency block of `get_score_breakdown` (lines 222–252): signals first;
programs are consulted only when no signal qualified. -/
def recencyBlock (signals : List Signal) (programs : List ProgramRow)
    (sevenDaysAgo now : Int) : Nat × String × List String :=
  let best :=
    match bestRecent (signals.map (fun s => s.detected_at)) sevenDaysAgo with
    | some b => some b
    | none => bestRecent (programs.map (fun p => p.detected_at)) sevenDaysAgo
  match best with
  | none => (0, "No recent signals", [])
  | some b =>
      let days_ago := (now - b).fdiv 86400
      let label :=
        if days_ago = 0 then "signal today"
        else if days_ago = 1 then "signal 1 day ago"
        else "signal " ++ toString days_ago ++ " days ago"
      (1, label, ["Recent activity: " ++ label ++ " (+1)"])

/-- Function `get_score_breakdown` from `scoring/scorer.py`: heat score and
breakdown for one company id.  `sevenDaysAgo` models the module constant
`SEVEN_DAYS_AGO` and `now` the call-time `datetime.now()`, both as `toSec`
values.  The row lookups model the three `SELECT ... WHERE` queries; the
`previous_heat_score` column always exists under the current schema, so the
`col_names` guard of the source is always taken. -/
def get_score_breakdown (db : Store) (sevenDaysAgo now : Int) (company_id : Nat) :
    Breakdown :=
  let company := (db.companies.filter (fun c => c.id = company_id)).head?
  let programs := db.programs.filter (fun p => p.company_id = company_id)
  let signals := db.signals.filter (fun s => s.company_id = company_id)
  let ped := pedigreeBlock programs
  let buzz := buzzBlock signals
  let cross := crossBlock signals
  let rec' := recencyBlock signals programs sevenDaysAgo now
  let score : Nat := ped.1 + buzz.1 + cross.1 + rec'.1
  let total : Int := max 1 (min (score : Int) 10)
  let reasons := ped.2.2 ++ buzz.2.2 ++ cross.2.2 ++ rec'.2.2
  let components : Components :=
    ⟨⟨(ped.1 : Int), 4, ped.2.1⟩, ⟨(buzz.1 : Int), 3, buzz.2.1⟩,
     ⟨(cross.1 : Int), 2, cross.2.1⟩, ⟨(rec'.1 : Int), 1, rec'.2.1⟩⟩
  let rising :=
    match company with
    | none => false
    | some comp =>
        match comp.previous_heat_score with
        | none => false
        | some prev => decide (total - prev ≥ 2)
  ⟨total, reasons, components, rising⟩

/-- Function `calculate_heat_score`. -/
def calculate_heat_score (db : Store) (sevenDaysAgo now : Int)
    (company_id : Nat) : Int :=
  (get_score_breakdown db sevenDaysAgo now company_id).total

/-- Snapshot step of `score_all_companies`: the single SQL statement
`UPDATE companies SET previous_heat_score = heat_score`, committed before
any score is recomputed. -/
def snapshotAll (db : Store) : Store :=
  { db with companies :=
      db.companies.map (fun c => { c with previous_heat_score := some c.heat_score }) }

/-- One iteration of the scoring loop of `score_all_companies`:
`update_company(cid, heat_score=calculate_heat_score(cid))` against the
current store. -/
def scoreStep (sevenDaysAgo now : Int) (acc : Store) (cid : Nat) : Store :=
  let new_score := calculate_heat_score acc sevenDaysAgo now cid
  { acc with companies :=
      acc.companies.map (fun c => if c.id = cid then { c with heat_score := new_score } else c) }

/-- Function `score_all_companies`: snapshot every `heat_score` into
`previous_heat_score`, then recompute and store each company's heat score in
row order.  Returns the resulting store and the count of companies scored. -/
def score_all_companies (db : Store) (sevenDaysAgo now : Int) : Store × Nat :=
  let db1 := snapshotAll db
  let ids := db1.companies.map (fun c => c.id)
  (ids.foldl (scoreStep sevenDaysAgo now) db1, ids.length)

/-! ### Claims about scoring -/

theorem clamp_bounds (x : Int) :
    1 ≤ max 1 (min x 10) ∧ max 1 (min x 10) ≤ 10 :=
  ⟨le_max_left _ _, max_le (by norm_num) (min_le_right x 10)⟩

/-- The breakdown total is the clamped component sum. -/
theorem breakdown_total_bounds (db : Store) (sda now : Int) (cid : Nat) :
    1 ≤ (get_score_breakdown db sda now cid).total
      ∧ (get_score_breakdown db sda now cid).total ≤ 10 :=
  clamp_bounds _

theorem scoreStep_signals (sda now : Int) (acc : Store) (cid : Nat) :
    (scoreStep sda now acc cid).signals = acc.signals := rfl

theorem scoreStep_programs (sda now : Int) (acc : Store) (cid : Nat) :
    (scoreStep sda now acc cid).programs = acc.programs := rfl

/-- The breakdown total reads only the signal and program tables, never the
company row (which feeds only the `rising` flag). -/
theorem breakdown_total_congr (db db' : Store) (sda now : Int) (cid : Nat)
    (hs : db.signals = db'.signals) (hp : db.programs = db'.programs) :
    (get_score_breakdown db sda now cid).total
      = (get_score_breakdown db' sda now cid).total := by
  unfold get_score_breakdown
  dsimp only
  rw [hs, hp]

/-- Invariant of the scoring loop: every company keeps its snapshot data and,
once its id has been processed, carries the heat score computed against the
snapshotted store. -/
theorem scoreFold_main (snap : Store) (sda now : Int) (B : Company → Prop)
    (hB : ∀ (c : Company) (ns : Int), B c → B { c with heat_score := ns }) :
    ∀ (ids : List Nat) (acc : Store),
      acc.signals = snap.signals → acc.programs = snap.programs →
      (∀ c ∈ acc.companies,
        B c ∧ (c.id ∈ ids ∨
          c.heat_score = (get_score_breakdown snap sda now c.id).total)) →
      ∀ c ∈ (ids.foldl (scoreStep sda now) acc).companies,
        B c ∧ c.heat_score = (get_score_breakdown snap sda now c.id).total := by
  intro ids
  induction ids with
  | nil =>
      intro acc _ _ h c hc
      rcases h c hc with ⟨hBc, hin | hT⟩
      · exact absurd hin (List.not_mem_nil _)
      · exact ⟨hBc, hT⟩
  | cons i is ih =>
      intro acc hs hp h c hc
      rw [List.foldl_cons] at hc
      refine ih (scoreStep sda now acc i) (by rw [scoreStep_signals]; exact hs)
        (by rw [scoreStep_programs]; exact hp) ?_ c hc
      intro c' hc'
      unfold scoreStep at hc'
      dsimp only at hc'
      obtain ⟨c0, hc0, heq⟩ := List.mem_map.mp hc'
      obtain ⟨hB0, hd⟩ := h c0 hc0
      by_cases hid : c0.id = i
      · rw [if_pos hid] at heq
        subst heq
        refine ⟨hB _ _ hB0, Or.inr ?_⟩
        show calculate_heat_score acc sda now i
          = (get_score_breakdown snap sda now c0.id).total
        rw [hid]
        exact breakdown_total_congr acc snap sda now i hs hp
      · rw [if_neg hid] at heq
        subst heq
        refine ⟨hB0, ?_⟩
        rcases hd with hin | hT
        · rcases List.mem_cons.mp hin with h' | h'
          · exact absurd h' hid
          · exact Or.inl h'
        · exact Or.inr hT

/-- Every company in the output of `score_all_companies` descends from an
input row of the same id, carries `previous_heat_score = ` the input row's
pre-pass `heat_score`, and carries the heat score computed against the fully
snapshotted store. -/
theorem scoreAll_spec (db : Store) (sda now : Int) :
    ∀ c ∈ (score_all_companies db sda now).1.companies,
      (∃ c₀ ∈ db.companies, c₀.id = c.id ∧ c.name = c₀.name
        ∧ c.previous_heat_score = some c₀.heat_score)
      ∧ c.heat_score = (get_score_breakdown (snapshotAll db) sda now c.id).total := by
  intro c hc
  have hc2 : c ∈ ((((snapshotAll db).companies.map (fun c => c.id)).foldl
      (scoreStep sda now) (snapshotAll db))).companies := hc
  refine scoreFold_main (snapshotAll db) sda now
    (fun c => ∃ c₀ ∈ db.companies, c₀.id = c.id ∧ c.name = c₀.name
      ∧ c.previous_heat_score = some c₀.heat_score)
    ?_ ((snapshotAll db).companies.map (fun c => c.id)) (snapshotAll db)
    rfl rfl ?_ c hc2
  · intro c' ns ⟨c₀, hc₀, h1, h2, h3⟩
    exact ⟨c₀, hc₀, h1, h2, h3⟩
  · intro c' hc'
    obtain ⟨c₀, hc₀, heq⟩ := List.mem_map.mp hc'
    constructor
    · refine ⟨c₀, hc₀, ?_, ?_, ?_⟩ <;> rw [← heq]
    · exact Or.inl (by rw [← heq] at hc' ⊢; exact List.mem_map_of_mem _ hc')

/-- C4: after any `score_all_companies` pass, every stored heat score lies
in `[1, 10]`; equivalently, the total of `get_score_breakdown` lies in
`[1, 10]` for every store, clock and company id. -/
theorem heat_scores_bounded :
    ∀ (db : Store) (sda now : Int),
      (∀ c ∈ (score_all_companies db sda now).1.companies,
        1 ≤ c.heat_score ∧ c.heat_score ≤ 10)
      ∧ ∀ cid, 1 ≤ (get_score_breakdown db sda now cid).total
          ∧ (get_score_breakdown db sda now cid).total ≤ 10 := by
  intro db sda now
  refine ⟨fun c hc => ?_, fun cid => breakdown_total_bounds db sda now cid⟩
  obtain ⟨-, hT⟩ := scoreAll_spec db sda now c hc
  rw [hT]
  exact breakdown_total_bounds _ sda now c.id

/-- Witness for C4 at a one-company store whose stored score starts out of
range (99): after the pass the score is 1, inside the bounds. -/
theorem heat_scores_bounded_witness :
    (1 ≤ (⟨1, "w", none, none, none, none, none, none, 1, some 99⟩ : Company).heat_score
      ∧ (⟨1, "w", none, none, none, none, none, none, 1, some 99⟩ : Company).heat_score ≤ 10)
    ∧ (1 ≤ (get_score_breakdown ⟨[], [], []⟩ 0 0 1).total
      ∧ (get_score_breakdown ⟨[], [], []⟩ 0 0 1).total ≤ 10) :=
  ⟨(heat_scores_bounded
      ⟨[⟨1, "w", none, none, none, none, none, none, 99, none⟩], [], []⟩ 0 0).1
    ⟨1, "w", none, none, none, none, none, none, 1, some 99⟩ (by decide),
   (heat_scores_bounded ⟨[], [], []⟩ 0 0).2 1⟩

/-- C7: `score_all_companies` snapshots `previous_heat_score := heat_score`
for all companies before computing any new score: in the resulting store
every company's `previous_heat_score` is its own pre-pass `heat_score`, and
every company's new `heat_score` equals the breakdown total computed against
the fully snapshotted store — no score computation observes a baseline
mixing pre-snapshot and post-snapshot values. -/
theorem snapshot_precedes_scoring :
    ∀ (db : Store) (sda now : Int),
      ∀ c ∈ (score_all_companies db sda now).1.companies,
        (∃ c₀ ∈ db.companies, c₀.id = c.id ∧ c.name = c₀.name
          ∧ c.previous_heat_score = some c₀.heat_score)
        ∧ c.heat_score = (get_score_breakdown (snapshotAll db) sda now c.id).total :=
  fun db sda now => scoreAll_spec db sda now

/-- Witness for C7 at a concrete one-company store. -/
theorem snapshot_precedes_scoring_witness :
    (∃ c₀ ∈ ([⟨1, "w", none, none, none, none, none, none, 7, none⟩] : List Company),
      c₀.id = 1 ∧ "w" = c₀.name
        ∧ (some (7 : Int) : Option Int) = some c₀.heat_score)
    ∧ ((⟨1, "w", none, none, none, none, none, none, 1, some 7⟩ : Company).heat_score
        = (get_score_breakdown
            (snapshotAll ⟨[⟨1, "w", none, none, none, none, none, none, 7, none⟩], [], []⟩)
            0 0 1).total) :=
  snapshot_precedes_scoring
    ⟨[⟨1, "w", none, none, none, none, none, none, 7, none⟩], [], []⟩ 0 0
    ⟨1, "w", none, none, none, none, none, none, 1, some 7⟩ (by decide)

/-- C5: `rising` is true exactly when the company row exists with a non-null
`previous_heat_score` and the freshly computed total exceeds it by at least
2; any smaller or negative delta, and a null `previous_heat_score`, give
false. -/
theorem rising_characterization (db : Store) (sda now : Int) (cid : Nat)
    (comp : Company)
    (h : (db.companies.filter (fun c => c.id = cid)).head? = some comp) :
    ((get_score_breakdown db sda now cid).rising = true ↔
      ∃ prev, comp.previous_heat_score = some prev ∧
        (get_score_breakdown db sda now cid).total - prev ≥ 2) := by
  have hr : (get_score_breakdown db sda now cid).rising =
      match (db.companies.filter (fun c => c.id = cid)).head? with
      | none => false
      | some comp =>
          match comp.previous_heat_score with
          | none => false
          | some prev =>
              decide ((get_score_breakdown db sda now cid).total - prev ≥ 2) := rfl
  rw [hr, h]
  cases hp : comp.previous_heat_score with
  | none => simp [hp]
  | some prev => simp [hp]

/-- Witness for C5: a company with `previous_heat_score = 1` and one Tier A
program scores 4, a delta of 3, so `rising` is true via the equivalence. -/
theorem rising_characterization_witness :
    ((get_score_breakdown
        ⟨[⟨1, "w", none, none, none, none, none, none, 1, some 1⟩], [],
         [⟨1, 1, "Seedcamp", none, none⟩]⟩ 0 0 1).rising = true ↔
      ∃ prev,
        (⟨1, "w", none, none, none, none, none, none, 1, some 1⟩ : Company).previous_heat_score
          = some prev ∧
        (get_score_breakdown
          ⟨[⟨1, "w", none, none, none, none, none, none, 1, some 1⟩], [],
           [⟨1, 1, "Seedcamp", none, none⟩]⟩ 0 0 1).total - prev ≥ 2) :=
  rising_characterization
    ⟨[⟨1, "w", none, none, none, none, none, none, 1, some 1⟩], [],
     [⟨1, 1, "Seedcamp", none, none⟩]⟩ 0 0 1
    ⟨1, "w", none, none, none, none, none, none, 1, some 1⟩ (by decide)

/-- C10: for a company id with no matching company row, no signals and no
programs, `get_score_breakdown` returns total 1 (the floor), empty reasons,
all component scores 0 and `rising = false` — and in particular does not
fail. -/
theorem missing_company_breakdown (db : Store) (sda now : Int) (cid : Nat)
    (hc : (db.companies.filter (fun c => c.id = cid)).head? = none)
    (hs : db.signals.filter (fun s => s.company_id = cid) = [])
    (hp : db.programs.filter (fun p => p.company_id = cid) = []) :
    get_score_breakdown db sda now cid =
      ⟨1, [],
       ⟨⟨0, 4, "No program"⟩, ⟨0, 3, "No buzz signals"⟩,
        ⟨0, 2, "0 sources"⟩, ⟨0, 1, "No recent signals"⟩⟩,
       false⟩ := by
  unfold get_score_breakdown
  rw [hc, hs, hp]
  rfl

/-- Witness for C10: the empty store. -/
theorem missing_company_breakdown_witness :
    get_score_breakdown ⟨[], [], []⟩ 0 0 1 =
      ⟨1, [],
       ⟨⟨0, 4, "No program"⟩, ⟨0, 3, "No buzz signals"⟩,
        ⟨0, 2, "0 sources"⟩, ⟨0, 1, "No recent signals"⟩⟩,
       false⟩ :=
  missing_company_breakdown ⟨[], [], []⟩ 0 0 1 rfl rfl rfl

/-- Spec-side formulation (C8): the HN tier from the maxima of points and
comment counts over HackerNews signals. -/
def specHNTier (signals : List Signal) : Nat :=
  let hn := signals.filter (fun s => s.source_name = "HackerNews")
  let pts := hn.foldl (fun m s => max m (_hn_stats s).1) 0
  let cmts := hn.foldl (fun m s => max m (_hn_stats s).2) 0
  if pts ≥ 300 ∨ cmts ≥ 100 then 3
  else if pts ≥ 100 ∨ cmts ≥ 50 then 2
  else if pts > 0 then 1 else 0

/-- Spec-side formulation (C8): +1 if any ProductHunt signal exists. -/
def specProductHunt (signals : List Signal) : Nat :=
  if signals.any (fun s => s.source_name = "ProductHunt") then 1 else 0

/-- Spec-side formulation (C8): number of distinct press sources present. -/
def specPressCount (signals : List Signal) : Nat :=
  (((signals.map (fun s => s.source_name)).filter
    (fun n => n ∈ PRESS_SOURCES)).dedup).length

/-- Spec-side formulation (C8): HN tier + ProductHunt + press count, capped
at 3. -/
def specBuzz (signals : List Signal) : Nat :=
  min (specHNTier signals + specProductHunt signals + specPressCount signals) 3

/-- The paired max-accumulation over all signals equals the two separate
max-folds over the HackerNews signals. -/
theorem hnFold_eq (signals : List Signal) :
    ∀ (a b : Int),
      signals.foldl
        (fun (acc : Int × Int) s =>
          if s.source_name = "HackerNews" then
            let pc := _hn_stats s
            (max acc.1 pc.1, max acc.2 pc.2)
          else acc) (a, b)
      = ((signals.filter (fun s => s.source_name = "HackerNews")).foldl
          (fun m s => max m (_hn_stats s).1) a,
         (signals.filter (fun s => s.source_name = "HackerNews")).foldl
          (fun m s => max m (_hn_stats s).2) b) := by
  induction signals with
  | nil => intro a b; rfl
  | cons s t ih =>
      intro a b
      by_cases h : s.source_name = "HackerNews"
      · simp [List.foldl_cons, List.filter_cons, h, ih]
      · simp [List.foldl_cons, List.filter_cons, h, ih]

theorem insertSortedBy_length {α : Type} (le : α → α → Bool) (a : α)
    (l : List α) : (insertSortedBy le a l).length = l.length + 1 := by
  induction l with
  | nil => rfl
  | cons b t ih =>
      unfold insertSortedBy
      split
      · rfl
      · simp only [List.length_cons, ih]

theorem sortListBy_length {α : Type} (le : α → α → Bool) (l : List α) :
    (sortListBy le l).length = l.length := by
  unfold sortListBy
  induction l with
  | nil => rfl
  | cons b t ih =>
      rw [List.foldr_cons, insertSortedBy_length, ih, List.length_cons]

/-- The buzz score of the code equals the spec-side formula. -/
theorem buzzBlock_score (signals : List Signal) :
    (buzzBlock signals).1 = specBuzz signals := by
  unfold buzzBlock specBuzz specHNTier specProductHunt specPressCount sortedStrings
  rw [hnFold_eq]
  dsimp only
  rw [sortListBy_length]
  split_ifs <;> rfl

/-- C8: the community-buzz component equals the HN tier (from the maxima of
points and comments over HackerNews signals: ≥300 points or ≥100 comments →
3; else ≥100 points or ≥50 comments → 2; else positive points → 1), plus 1
if any ProductHunt signal exists, plus 1 per distinct press source present,
with the sum capped at 3. -/
theorem buzz_component_formula (db : Store) (sda now : Int) (cid : Nat) :
    (get_score_breakdown db sda now cid).components.buzz.score =
      (specBuzz (db.signals.filter (fun s => s.company_id = cid)) : Int) := by
  have h : (get_score_breakdown db sda now cid).components.buzz.score
      = ((buzzBlock (db.signals.filter (fun s => s.company_id = cid))).1 : Int) := rfl
  rw [h, buzzBlock_score]

/-- A timestamp qualifies for the recency boost: it parses under one of the
accepted formats and is at or after the seven-day threshold. -/
def stampQualifies (sda : Int) (ts : Option String) : Bool :=
  match _parse_ts ts with
  | some dt => decide (dt.toSec ≥ sda)
  | none => false

/-- Spec-side formulation (C9, amended): some timestamp in the list
qualifies (no upper bound on how far in the future it may lie). -/
def specAnyRecent (stamps : List (Option String)) (sda : Int) : Bool :=
  stamps.any (stampQualifies sda)

/-- Spec-side formulation (C9, as claimed): some timestamp parses and lies
within the trailing window `[sda, now]` of evaluation time. -/
def specAnyWithinWindow (stamps : List (Option String)) (sda now : Int) : Bool :=
  stamps.any (fun ts =>
    match _parse_ts ts with
    | some dt => decide (sda ≤ dt.toSec) && decide (dt.toSec ≤ now)
    | none => false)

theorem recentStep_isSome (sda : Int) (acc : Option Int) (ts : Option String) :
    (recentStep sda acc ts).isSome = (acc.isSome || stampQualifies sda ts) := by
  unfold recentStep stampQualifies
  cases _parse_ts ts with
  | none => simp
  | some dt =>
      dsimp only
      by_cases h : dt.toSec ≥ sda
      · rw [if_pos h]
        cases acc with
        | none => simp [h]
        | some b =>
            dsimp only
            split <;> simp
      · rw [if_neg h]
        simp [h]

theorem bestRecent_fold_isSome (sda : Int) (stamps : List (Option String)) :
    ∀ (acc : Option Int),
      (stamps.foldl (recentStep sda) acc).isSome
        = (acc.isSome || stamps.any (stampQualifies sda)) := by
  induction stamps with
  | nil => intro acc; simp
  | cons ts t ih =>
      intro acc
      rw [List.foldl_cons, ih, List.any_cons, recentStep_isSome, Bool.or_assoc]

theorem bestRecent_isSome (stamps : List (Option String)) (sda : Int) :
    (bestRecent stamps sda).isSome = stamps.any (stampQualifies sda) := by
  unfold bestRecent
  rw [bestRecent_fold_isSome]
  rfl

/-- The recency score is 1 exactly when some signal stamp, or else some
program stamp, qualifies. -/
theorem recencyBlock_score (signals : List Signal) (programs : List ProgramRow)
    (sda now : Int) :
    (recencyBlock signals programs sda now).1 =
      (if (signals.map (fun s => s.detected_at)).any (stampQualifies sda)
          || (programs.map (fun p => p.detected_at)).any (stampQualifies sda)
        then 1 else 0) := by
  unfold recencyBlock
  cases hs : bestRecent (signals.map (fun s => s.detected_at)) sda with
  | some b =>
      have h1 : (signals.map (fun s => s.detected_at)).any (stampQualifies sda)
          = true := by
        rw [← bestRecent_isSome, hs]; rfl
      simp [h1]
  | none =>
      have h1 : (signals.map (fun s => s.detected_at)).any (stampQualifies sda)
          = false := by
        rw [← bestRecent_isSome, hs]; rfl
      cases hp : bestRecent (programs.map (fun p => p.detected_at)) sda with
      | some b =>
          have h2 : (programs.map (fun p => p.detected_at)).any (stampQualifies sda)
              = true := by
            rw [← bestRecent_isSome, hp]; rfl
          simp [h1, h2]
      | none =>
          have h2 : (programs.map (fun p => p.detected_at)).any (stampQualifies sda)
              = false := by
            rw [← bestRecent_isSome, hp]; rfl
          simp [h1, h2]

/-- C9 (amended): the recency component is 1 exactly when some signal or
program has a `detected_at` that parses under one of the accepted formats
and is at or after the seven-day threshold — with no upper bound, so a
timestamp arbitrarily far in the future also counts; unparsable or missing
timestamps never qualify and never raise (the parse model is total). -/
theorem recency_component_characterization (db : Store) (sda now : Int)
    (cid : Nat) :
    (get_score_breakdown db sda now cid).components.recency.score =
      (if specAnyRecent ((db.signals.filter (fun s => s.company_id = cid)).map
            (fun s => s.detected_at)) sda
          || specAnyRecent ((db.programs.filter (fun p => p.company_id = cid)).map
            (fun p => p.detected_at)) sda
        then 1 else 0) := by
  have h : (get_score_breakdown db sda now cid).components.recency.score
      = ((recencyBlock (db.signals.filter (fun s => s.company_id = cid))
          (db.programs.filter (fun p => p.company_id = cid)) sda now).1 : Int) := rfl
  rw [h, recencyBlock_score]
  unfold specAnyRecent
  split_ifs <;> rfl

/-- Store of the C9 counterexample: one company whose only signal is dated
2099-01-01, evaluated with a seven-day window ending 2026-10-12. -/
def futureStampStore : Store :=
  ⟨[⟨1, "w", none, none, none, none, none, none, 1, none⟩],
   [⟨1, 1, "SourceX", "realtime", .absent, some "2099-01-01"⟩], []⟩

/-- C9 counterexample: a signal dated 2099-01-01 — far outside the trailing
7 days `[sda, now]` (here `now - sda = 604800` seconds, i.e. exactly seven
days) — still yields recency score 1, because the code only compares
`detected >= SEVEN_DAYS_AGO` and never bounds the timestamp by the
evaluation time. -/
theorem recency_counts_future_timestamp :
    (get_score_breakdown futureStampStore 63926789932 63927394732 1).components.recency.score = 1
    ∧ specAnyWithinWindow
        ((futureStampStore.signals.filter (fun s => s.company_id = 1)).map
          (fun s => s.detected_at)
        ++ (futureStampStore.programs.filter (fun p => p.company_id = 1)).map
          (fun p => p.detected_at)) 63926789932 63927394732 = false
    ∧ (63927394732 - 63926789932 : Int) = 604800 := by
  decide
